import Mathlib

/-!
Verification of the restify request-to-query translation and
mutation-orchestration engine against its specification.

The definitions below are a shallow embedding of the Go source:

* `pagination.go` — `Pagination`, `SetCurrentPage`, `SetLimit`, `SetPages`,
  `SetLast`, `SetPageRange`, `GetOffset`, `GetPage`;
* `resource.go` — `RestPermission`, `ToPermissions`, `applyOverrides`,
  `AddValidationErrors`, `HandleError`;
* `functions.go` — `equal`;
* `filter.go` (second, current revision of the file) — `filterRegEx`,
  `filterMapper`, `parseOrderBy` and the order handling of `ApplyFilters`;
* the handlers file — `Set` (`parseSetInput`, `buildSetQuery`,
  `processSetDeletions`, `processSetCreations`, `itemExistsInSlice`),
  `BatchUpdate`, `BatchDelete`, `Aggregate` (`parseAggregateFields`),
  `Create`;
* the hooks file — `callBeforeCreateHook` and the callback chain registered
  by `registerHooks`.

Go `int` is modelled as `Int` (with truncated division `Int.tdiv` /
`Int.tmod`, Go's `/` and `%`).  Go `reflect.Value`s, as far as the shallow
field-by-field comparison `equal` and `applyOverrides` inspect them, are
modelled by the inductive `GoValue`.
-/

namespace Restify

/-! ## String collaborators

The embedded code uses `strings.Split`, `strings.TrimSpace`,
`strings.ToUpper`/`ToLower` from the Go standard library, always with
single-character separators.  They are modelled by structurally
recursive functions on the character list so that concrete instances
evaluate inside proofs. -/

/-- The `strings.Split` collaborator on a single-character separator. -/
def splitOnChar (sep : Char) : List Char → List (List Char)
  | [] => [[]]
  | c :: rest =>
    if c = sep then [] :: splitOnChar sep rest
    else
      match splitOnChar sep rest with
      | [] => [[c]]
      | g :: gs => (c :: g) :: gs

def strSplit (s : String) (sep : Char) : List String :=
  (splitOnChar sep s.data).map String.mk

/-- The `strings.TrimSpace` collaborator. -/
def strTrim (s : String) : String :=
  String.mk (((s.data.dropWhile Char.isWhitespace).reverse.dropWhile Char.isWhitespace).reverse)

/-- The `strings.ToUpper` collaborator (ASCII, which covers every token the code feeds
it). -/
def strToUpper (s : String) : String := String.mk (s.data.map Char.toUpper)

/-- The `strings.ToLower` collaborator (ASCII). -/
def strToLower (s : String) : String := String.mk (s.data.map Char.toLower)

/-! ## Pagination (pagination.go) -/

/-- The `Pagination` struct of pagination.go, restricted to the fields the
embedded methods read or write.  All numeric fields are Go `int`s. -/
structure Pagination where
  records : Int := 0
  pages : Int := 0
  limit : Int := 0
  page : Int := 0
  last : Int := 0
  pageRange : List Int := []
deriving Repr, DecidableEq

/-- Model of `SetCurrentPage`: `if page > 0 { p.Page = page } else { p.Page = 1 }`. -/
def setCurrentPage (p : Pagination) (page : Int) : Pagination :=
  if page > 0 then { p with page := page } else { p with page := 1 }

/-- Model of `SetLimit`: assign `limit` (or the minimum 10 when the argument is 0),
then clamp into `[10, 100]`. -/
def setLimit (p : Pagination) (limit : Int) : Pagination :=
  let maxLimit : Int := 100
  let minLimit : Int := 10
  let p := if limit ≠ 0 then { p with limit := limit } else { p with limit := minLimit }
  if p.limit < minLimit then { p with limit := minLimit }
  else if p.limit > maxLimit then { p with limit := maxLimit }
  else p

/-- Model of `GetPage`: returns the current page, first resetting it to 1 when it is
below 1 (the Go method mutates the receiver, so the updated struct is
returned alongside the value). -/
def getPage (p : Pagination) : Pagination × Int :=
  if p.page < 1 then ({ p with page := 1 }, 1) else (p, p.page)

/-- Model of `GetOffset`: `(p.GetPage() - 1) * p.Limit`. -/
def getOffset (p : Pagination) : Pagination × Int :=
  let (p, pg) := getPage p
  (p, (pg - 1) * p.limit)

/-- Model of `SetLast`: `p.Last = p.GetOffset() + p.Limit`, capped at `p.Records`. -/
def setLast (p : Pagination) : Pagination :=
  let (p, off) := getOffset p
  let l := off + p.limit
  if l > p.records then { p with last := p.records } else { p with last := l }

/-- Model of `SetPageRange`: appends every `i` with `p.Page - 2 ≤ i < to` and
`i > 0`, where `to = p.Page + 5` capped at `p.Pages + 1`. -/
def setPageRange (p : Pagination) : Pagination :=
  let toBound := if p.page + 5 > p.pages then p.pages + 1 else p.page + 5
  let is := (List.range (toBound - (p.page - 2)).toNat).map (fun k => p.page - 2 + k)
  { p with pageRange := p.pageRange ++ is.filter (fun i => i > 0) }

/-- Model of `SetPages`: `1` when `Records = 0`; otherwise `Records / Limit` rounded
up (Go truncated division), with a final `0 → 1` correction, followed by
`SetLast` and `SetPageRange`. -/
def setPages (p : Pagination) : Pagination :=
  if p.records = 0 then { p with pages := 1 }
  else
    let res := p.records.tmod p.limit
    let p :=
      if res = 0 then { p with pages := p.records.tdiv p.limit }
      else { p with pages := p.records.tdiv p.limit + 1 }
    let p := if p.pages = 0 then { p with pages := 1 } else p
    setPageRange (setLast p)

/-! ## Permission gate (resource.go `RestPermission`) -/

/-- Model of `Permission.ToPermissions`: split the composite permission string on
`+`. -/
def toPermissions (p : String) : List String := strSplit p '+'

/-- Model of `Permissions.Has`: case-insensitive membership of any of the given
tokens. -/
def permissionsHas (p : List String) (perms : List String) : Bool :=
  perms.any (fun s => p.any (fun item => strToUpper item = strToUpper s))

/-- Model of `Context.RestPermission`: if the model implements the `RestPermission`
hook (`hook = some h`), its verdict is returned; otherwise the global
`permissionHandler` decides when set; otherwise allow. -/
def restPermission (hook : Option (List String → Bool))
    (globalHandler : Option (List String → Bool)) (permission : String) : Bool :=
  match hook with
  | some h => h (toPermissions permission)
  | none =>
    match globalHandler with
    | some g => g (toPermissions permission)
    | none => true

/-! ## Reflected Go values (functions.go `equal`, resource.go `applyOverrides`)

`equal` inspects a `reflect.Value` only through: pointer dereferencing
(`Kind() == Ptr`, `IsNil`, `Elem`), the struct test (`Kind() == Struct`),
the field list of a struct, `IsZero`, and `fmt.Sprint` of a non-struct
leaf.  `GoValue` records exactly that much structure: a non-struct,
non-pointer leaf keeps its zero flag and its `fmt.Sprint` rendering. -/

inductive GoValue where
  /-- a non-struct, non-pointer field: its `IsZero` flag and its
  `fmt.Sprint` rendering -/
  | prim (isZero : Bool) (sprint : String)
  /-- a pointer field (`none` = nil pointer) -/
  | ptr (elem : Option GoValue)
  /-- a struct with its ordered field list -/
  | strct (fields : List GoValue)
deriving Inhabited

mutual

/-- Model of `reflect.Value.IsZero`: a leaf knows its flag, a nil pointer is zero, a
non-nil pointer is not, a struct is zero iff all its fields are. -/
def goIsZero : GoValue → Bool
  | .prim z _ => z
  | .ptr none => true
  | .ptr (some _) => false
  | .strct fs => goAllZero fs

def goAllZero : List GoValue → Bool
  | [] => true
  | f :: fs => goIsZero f && goAllZero fs

end

/-- The `for v.Kind() == reflect.Ptr { v = v.Elem() }` loops of `equal`.
A nil pointer stays put (its `Elem()` is the invalid `reflect.Value`,
which is neither a pointer nor a struct). -/
def derefAll : GoValue → GoValue
  | .ptr (some v) => derefAll v
  | v => v

/-- Model of `reflect.Value.IsNil` on a pointer field. -/
def isNilValue : GoValue → Bool
  | .ptr none => true
  | _ => false

/-- Model of `fmt.Sprint(v.Interface())` on the values `equal` reaches after its
dereference loops (a nil dereference or a struct never reaches the
comparison, see `equalDeref`). -/
def goSprint : GoValue → String
  | .prim _ s => s
  | .ptr _ => "<pointer>"
  | .strct _ => "<struct>"

/-- Model of `v.Kind() == reflect.Struct`. -/
def isStructValue : GoValue → Bool
  | .strct _ => true
  | _ => false

/-- The tail of `equal`'s field loop after the zero/nil handling: both
sides are dereferenced to non-pointers, a struct-kind `field1` is skipped
(`continue`), otherwise the `fmt.Sprint` renderings are compared. -/
def equalDeref (f1 f2 : GoValue) : Bool :=
  if isStructValue (derefAll f1) then true
  else goSprint (derefAll f2) == goSprint (derefAll f1)

/-- One iteration of `equal`'s field loop (functions.go lines 193–226):
skip when either side `IsZero`; on a pointer `field1`, equal nilness
continues and unequal nilness fails, a non-nil `field1` is dereferenced
once; then `equalDeref`. -/
def equalField (f1 f2 : GoValue) : Bool :=
  if goIsZero f2 || goIsZero f1 then true
  else
    match f1 with
    | .ptr none => isNilValue f2
    | .ptr (some v1) => if isNilValue f2 then false else equalDeref v1 f2
    | _ => equalDeref f1 f2

/-- Model of `equal`'s loop over `val1`'s fields, indexing `val2` in step.  Both
values always have the same Go struct type at every call site, hence the
same field count; Go would panic (index out of range) on a shorter
`val2`, modelled as `false`. -/
def equalFields : List GoValue → List GoValue → Bool
  | [], _ => true
  | _ :: _, [] => false
  | f1 :: r1, f2 :: r2 => equalField f1 f2 && equalFields r1 r2

/-- Model of `equal` (functions.go lines 177–229): dereference both arguments to
non-pointers, require both to be structs, then run the field loop. -/
def equal (val1 val2 : GoValue) : Bool :=
  match derefAll val1, derefAll val2 with
  | .strct fs1, .strct fs2 => equalFields fs1 fs2
  | _, _ => false

/-! ## Set reconciliation (handlers file) -/

/-- Model of `Handler.itemExistsInSlice`: scan the slice with `equal(item, ·)`. -/
def itemExistsInSlice (item : GoValue) (slice : List GoValue) : Bool :=
  slice.any (fun x => equal item x)

/-- Model of `Handler.processSetDeletions` membership decisions: the loaded rows
the deletion pass removes (each loaded row with no `equal` match in the
submitted array is deleted, unscoped). -/
def processSetDeletions (input loader : List GoValue) : List GoValue :=
  loader.filter (fun item => !itemExistsInSlice item input)

/-- Model of `Handler.processSetCreations` membership decisions: the submitted
entries the creation pass inserts (each submitted entry with no `equal`
match among the loaded rows is created). -/
def processSetCreations (input loader : List GoValue) : List GoValue :=
  input.filter (fun item => !itemExistsInSlice item loader)

/-! ## Overrides (resource.go `applyOverrides`) -/

/-- The field loop of `Context.applyOverrides`: every non-zero field of
the override struct is copied onto the target object; zero-valued
override fields leave the target field untouched.  Override and target
have the same Go struct type, hence the same field count. -/
def applyOverrideFields : List GoValue → List GoValue → List GoValue
  | [], t => t
  | _, [] => []
  | o :: os, t :: ts => (if goIsZero o then t else o) :: applyOverrideFields os ts

/-- Model of `Context.applyOverrides` (resource.go lines 628–640): no-op when no
override record was set. -/
def applyOverrides (ov : Option (List GoValue)) (target : List GoValue) : List GoValue :=
  match ov with
  | none => target
  | some o => applyOverrideFields o target

/-- The object `Handler.Create` hands to `dbo.Create` after the before
hooks ran: the parsed (and hook-mutated) body with the override patch
applied. -/
def createWrittenObject (ov : Option (List GoValue)) (parsedBody : List GoValue) : List GoValue :=
  applyOverrides ov parsedBody

/-- The object `Handler.Update` (full and partial alike) hands to
`dbo.Save` / `dbo.Updates` after its before hooks: the parsed body with
the override patch applied. -/
def updateWrittenObject (ov : Option (List GoValue)) (parsedBody : List GoValue) : List GoValue :=
  applyOverrides ov parsedBody

/-! ## Order parsing (filter.go `parseOrderBy` and `ApplyFilters`) -/

/-- One iteration of `parseOrderBy`'s loop over the comma-separated
clauses: a token whose trimmed form has no `.` separator is left exactly
as it was (the `continue` keeps the original, untrimmed slice entry); a
direction other than `ASC`/`DESC` (case-insensitive) falls back to `ASC`;
otherwise the clause is rendered as ``​`table`.`column` DIR``. -/
def normalizeOrderClause (table cl : String) : String :=
  let c := strTrim cl
  let parts := strSplit c '.'
  if parts.length < 2 then cl
  else
    let ord0 := strToUpper (parts.getLastD "")
    let column := String.intercalate "." parts.dropLast
    let ord := if ord0 ≠ "ASC" ∧ ord0 ≠ "DESC" then "ASC" else ord0
    "`" ++ table ++ "`.`" ++ column ++ "` " ++ ord

/-- Model of `parseOrderBy` (filter.go lines 424–454). -/
def parseOrderBy (input table : String) : String :=
  String.intercalate "," ((strSplit input ',').map (normalizeOrderClause table))

/-- The order handling of `ApplyFilters` (filter.go lines 365–368): a
non-empty `order` query parameter is passed through `parseOrderBy` and
applied with `query.Order`; `none` means the query keeps its default,
unspecified order.  No error is ever produced here. -/
def applyOrder (table order : String) : Option String :=
  if order ≠ "" then some (parseOrderBy order table) else none

/-! ## Filter parsing and mapping (filter.go, current revision) -/

/-- A structured HTTP-style error (`Error` of errors.go): numeric code and
message. -/
structure ErrorModel where
  code : Int
  message : String
deriving Repr, DecidableEq

/-- One parsed filter token of `filterRegEx`: named groups `column`,
`condition`, `value`. -/
structure FilterClauseM where
  column : String
  condition : String
  value : String
deriving Repr, DecidableEq

/-- A schema field as `filterMapper` consumes it: Go field name, database
column name, and whether the field's type implements the `RestFilter`
custom-filter capability. -/
structure SchemaF where
  name : String
  dbName : String
  hasRestFilter : Bool
deriving Repr, DecidableEq

/-- A forced `Condition` of the `Context` (resource.go): field, operator,
value (the Go `any` value, modelled by its rendering). -/
structure ConditionM where
  field : String
  op : String
  value : String
deriving Repr, DecidableEq

/-- A WHERE predicate attached to the gorm query.  `raw` carries no bound
argument (the `isnull`/`notnull` branch), `bound` is a parameter-bound
fragment with its arguments, and `custom` stands for the opaque query
manipulation a field's `RestFilter` hook performed on the clause handed to
it. -/
inductive PredM where
  | raw (sql : String)
  | bound (sql : String) (args : List String)
  | custom (column condition value : String)
deriving Repr, DecidableEq

/-- The query state `filterMapper` threads: accumulated WHERE predicates
and the `Unscoped` flag toggled for `deleted_at` null checks. -/
structure QueryM where
  preds : List PredM := []
  noScope : Bool := false
deriving Repr, DecidableEq

/-- Model of `filterConditions` of filter.go (current revision). -/
def filterConditions : List (String × String) :=
  [("eq", "="), ("neq", "!="), ("gt", ">"), ("lt", "<"), ("gte", ">="), ("lte", "<="),
   ("in", "IN"), ("between", "BETWEEN"), ("contains", "LIKE"), ("isnull", "IS NULL"),
   ("notnull", "IS NOT NULL")]

def lookupFilterCondition (k : String) : Option String :=
  (filterConditions.find? (fun e => e.1 = k)).map (fun e => e.2)

/-- The charset `[a-zA-Z_\-0-9]`: the column charset of the filter token regex. -/
def isColumnChar (c : Char) : Bool :=
  c.isAlpha || c.isDigit || c = '_' || c = '-'

/-- The charset `[a-zA-Z_\-0-9\s\%\,.\*]`: the value charset of the filter token
regex (`\s` modelled by `Char.isWhitespace`). -/
def isValueChar (c : Char) : Bool :=
  c.isAlpha || c.isDigit || c = '_' || c = '-' || c.isWhitespace ||
  c = '%' || c = ',' || c = '.' || c = '*'

/-- The trailing `\&*` of the filter token regex. -/
def dropAmps : List Char → List Char
  | '&' :: rest => dropAmps rest
  | cs => cs

/-- One attempted match of the filter token regex
`column\[condition\](=value)?\&*` at the current position: a non-empty
column run, `[`, a non-empty alphabetic condition run, `]`, then the
optional `=value` group (dropped when no value character follows the `=`),
then any number of `&`. -/
def tryFilterMatch (cs : List Char) : Option (FilterClauseM × List Char) :=
  let (col, r1) := cs.span isColumnChar
  if col.isEmpty then none
  else
    match r1 with
    | '[' :: r2 =>
      let (cond, r3) := r2.span Char.isAlpha
      if cond.isEmpty then none
      else
        match r3 with
        | ']' :: r4 =>
          match r4 with
          | '=' :: r5 =>
            let (v, r6) := r5.span isValueChar
            if v.isEmpty then some (⟨String.mk col, String.mk cond, ""⟩, dropAmps r4)
            else some (⟨String.mk col, String.mk cond, String.mk v⟩, dropAmps r6)
          | _ => some (⟨String.mk col, String.mk cond, ""⟩, dropAmps r4)
        | _ => none
    | _ => none

/-- The scan loop of `regexp.FindAllStringSubmatch`: successive leftmost
matches; on failure the scan advances one position.  The fuel (the input
length) bounds the recursion; every step consumes at least one
character. -/
def filterRegExAux : Nat → List Char → List FilterClauseM
  | 0, _ => []
  | _ + 1, [] => []
  | fuel + 1, c :: rest =>
    if isColumnChar c then
      match tryFilterMatch (c :: rest) with
      | some (cl, r) => cl :: filterRegExAux fuel r
      | none => filterRegExAux fuel rest
    else filterRegExAux fuel rest

/-- Model of `filterRegEx` of filter.go: all filter tokens of the raw query
string, in order. -/
def filterRegEx (s : String) : List FilterClauseM :=
  filterRegExAux s.length s.data

def hexDigitVal (c : Char) : Option Nat :=
  if c.isDigit then some (c.toNat - 48)
  else if 'a' ≤ c ∧ c ≤ 'f' then some (c.toNat - 87)
  else if 'A' ≤ c ∧ c ≤ 'F' then some (c.toNat - 55)
  else none

def queryUnescapeAux : List Char → Option (List Char)
  | [] => some []
  | '%' :: a :: b :: rest =>
    match hexDigitVal a, hexDigitVal b with
    | some ha, some hb => (queryUnescapeAux rest).map (fun t => Char.ofNat (16 * ha + hb) :: t)
    | _, _ => none
  | '%' :: _ => none
  | '+' :: rest => (queryUnescapeAux rest).map (fun t => ' ' :: t)
  | c :: rest => (queryUnescapeAux rest).map (fun t => c :: t)

/-- Model of `url.QueryUnescape` as `filterMapper` uses it: `%XX` hex escapes are
decoded and `+` becomes a space; on a malformed escape the function's
error is discarded and its empty-string result is kept. -/
def queryUnescape (s : String) : String :=
  match queryUnescapeAux s.data with
  | some cs => String.mk cs
  | none => ""

def isDateShape (cs : List Char) : Bool :=
  match cs with
  | [y1, y2, y3, y4, '-', m1, m2, '-', d1, d2] =>
    [y1, y2, y3, y4, m1, m2, d1, d2].all Char.isDigit
  | _ => false

def isClockShape (cs : List Char) : Bool :=
  match cs with
  | [h1, h2, ':', m1, m2, ':', s1, s2] =>
    [h1, h2, m1, m2, s1, s2].all Char.isDigit
  | _ => false

/-- Modelled from the spec: the external `generic.Parse(value).Time()`
timestamp parsing used by the `between` branch (library code outside
src/), composed with the `2006-01-02 15:04:05` rendering applied to its
result; accepts dates and date-times in that layout. -/
def parseTimeM (s : String) : Option String :=
  let cs := s.data
  if isDateShape cs then some (s ++ " 00:00:00")
  else if cs.length = 19 ∧ isDateShape (cs.take 10) ∧ cs.getD 10 ' ' = ' ' ∧
      isClockShape (cs.drop 11) then some s
  else none

def errorColumnNotExist : ErrorModel := ⟨500, "column does not exist"⟩

/-- The parameter-bound predicate the forced-`Condition` loop of
`filterMapper` emits: ``​`table`.`field` op ?`` bound to the condition's
value. -/
def condToPred (table : String) (c : ConditionM) : PredM :=
  .bound ("`" ++ table ++ "`.`" ++ c.field ++ "` " ++ c.op ++ " ?") [c.value]

/-- The clause loop of `filterMapper` (filter.go lines 262–342) followed
by the forced-`Condition` loop.  Each clause resolves its column against
the schema (`ErrorColumnNotExist` otherwise); a field implementing
`RestFilter` receives the clause and the function returns the query
immediately — skipping the remaining clauses and the `Conditions` loop;
otherwise the operator branches build the predicate.  After the clause
loop, every `Context.Condition` is appended as a parameter-bound
predicate. -/
def filterMapperLoop (table : String) (fields : List SchemaF) (conds : List ConditionM) :
    List FilterClauseM → QueryM → Except ErrorModel QueryM
  | [], q => .ok { q with preds := q.preds ++ conds.map (condToPred table) }
  | cl :: rest, q =>
    let value := queryUnescape cl.value
    match fields.find? (fun f => f.dbName = cl.column) with
    | none => .error errorColumnNotExist
    | some f =>
      if f.hasRestFilter then
        .ok { q with preds := q.preds ++ [.custom cl.column cl.condition value] }
      else if cl.condition = "notnull" ∨ cl.condition = "isnull" then
        let q := if cl.column = "deleted_at" then { q with noScope := true } else q
        filterMapperLoop table fields conds rest
          { q with preds := q.preds ++
              [.raw ("`" ++ table ++ "`.`" ++ cl.column ++ "` " ++
                (lookupFilterCondition cl.condition).getD "")] }
      else if cl.condition = "contains" then
        filterMapperLoop table fields conds rest
          { q with preds := q.preds ++
              [.bound ("`" ++ table ++ "`.`" ++ cl.column ++ "` LIKE ?")
                ["%" ++ value ++ "%"]] }
      else if cl.condition = "notin" then
        filterMapperLoop table fields conds rest
          { q with preds := q.preds ++
              [.bound ("`" ++ table ++ "`.`" ++ cl.column ++ "` NOT IN (?)")
                (strSplit value ',')] }
      else if cl.condition = "in" then
        filterMapperLoop table fields conds rest
          { q with preds := q.preds ++
              [.bound ("`" ++ table ++ "`.`" ++ cl.column ++ "` IN (?)")
                (strSplit value ',')] }
      else if cl.condition = "search" then
        filterMapperLoop table fields conds rest
          { q with preds := q.preds ++
              [.bound ("MATCH (`" ++ table ++ "`.`" ++ cl.column ++
                "`) AGAINST (? IN NATURAL LANGUAGE MODE)") [value]] }
      else if cl.condition = "between" then
        match strSplit value ',' with
        | [v1, v2] =>
          match parseTimeM v1 with
          | none => .error ⟨400, "invalid filter value for between operator, expected date got " ++ v1⟩
          | some t1 =>
            match parseTimeM v2 with
            | none => .error ⟨400, "invalid filter value for between operator, expected date got " ++ v2⟩
            | some t2 =>
              filterMapperLoop table fields conds rest
                { q with preds := q.preds ++
                    [.bound ("`" ++ table ++ "`.`" ++ cl.column ++ "` BETWEEN ? AND ?")
                      [t1, t2]] }
        | vs => .error ⟨400, "invalid filter value for between operator, expected 2 values got " ++
            toString vs.length⟩
      else
        match lookupFilterCondition cl.condition with
        | some sym =>
          filterMapperLoop table fields conds rest
            { q with preds := q.preds ++
                [.bound ("`" ++ table ++ "`.`" ++ cl.column ++ "` " ++ sym ++ " ?") [value]] }
        | none => .error ⟨500, "invalid filter condition " ++ cl.condition⟩

/-- Model of `filterMapper`: parse the raw query string with `filterRegEx` and run
the clause and condition loops on an empty query. -/
def filterMapper (table : String) (fields : List SchemaF) (conds : List ConditionM)
    (filters : String) : Except ErrorModel QueryM :=
  filterMapperLoop table fields conds (filterRegEx filters) {}

/-! ## Batch/Set/Aggregate handler pipelines (handlers file)

Each handler is modelled as the sequence of checks it performs, with the
outcome recording the returned error (if any), how many database
mutation statements it issued, and how many read queries it executed.
The collaborators the handler consults (permission verdict, body-parse
success, hook success, database contents) are passed in as parameters. -/

/-- Outcome of one handler run: the error it returned (`none` on
success), the number of database mutation statements issued, and the
number of read queries executed. -/
structure RunResult where
  error : Option ErrorModel
  mutations : Nat
  queries : Nat
deriving Repr, DecidableEq

/-- Model of `ErrorPermissionDenied` of errors.go. -/
def errorPermissionDeniedM : ErrorModel := ⟨403, "permission denied"⟩

/-- Model of `ErrorUnsafe` of errors.go: the guard error for predicate-less batch
operations. -/
def errGuardReject : ErrorModel := ⟨400, "unsafe request"⟩

/-- Whether the built query carries any WHERE clause
(`stmt.Clauses["WHERE"].Expression == nil` is the negation); only
`filterMapper` ever adds WHERE clauses on these handler paths. -/
def whereClausePresent (q : QueryM) : Bool := !q.preds.isEmpty

/-- Model of `Handler.BatchUpdate`: permission check, `ApplyFilters`, body parse,
then the guard — reject with `ErrorUnsafe` when the `unsafe` query
parameter is empty and the built query has no WHERE clause — then the
before-update hooks and the single batch `Updates` statement.  `uParam`
is the raw `unsafe` query parameter. -/
def batchUpdateRun (table : String) (fields : List SchemaF) (conds : List ConditionM)
    (filters uParam : String) (permOk bodyOk hooksOk : Bool) : RunResult :=
  if !permOk then ⟨some errorPermissionDeniedM, 0, 0⟩
  else
    match filterMapper table fields conds filters with
    | .error e => ⟨some e, 0, 0⟩
    | .ok q =>
      if !bodyOk then ⟨some ⟨500, "body parse failed"⟩, 0, 0⟩
      else if uParam = "" && !whereClausePresent q then ⟨some errGuardReject, 0, 0⟩
      else if !hooksOk then ⟨some ⟨500, "hook failed"⟩, 0, 0⟩
      else ⟨none, 1, 0⟩

/-- Model of `Handler.BatchDelete`: permission check, `ApplyFilters`, the guard,
then the single batch `Delete` statement. -/
def batchDeleteRun (table : String) (fields : List SchemaF) (conds : List ConditionM)
    (filters uParam : String) (permOk : Bool) : RunResult :=
  if !permOk then ⟨some errorPermissionDeniedM, 0, 0⟩
  else
    match filterMapper table fields conds filters with
    | .error e => ⟨some e, 0, 0⟩
    | .ok q =>
      if uParam = "" && !whereClausePresent q then ⟨some errGuardReject, 0, 0⟩
      else ⟨none, 1, 0⟩

/-- Model of `Handler.Set`: permission check, `parseSetInput` (body parse),
`buildSetQuery` (`ApplyFilters`, the guard, then the `Find` that loads
the existing rows), then the deletion and creation passes.  `input` is
the parsed submission and `loader` the rows the `Find` would return; the
mutation count is one statement per reconciliation delete or create. -/
def setRun (table : String) (fields : List SchemaF) (conds : List ConditionM)
    (filters uParam : String) (permOk bodyOk : Bool) (input loader : List GoValue) : RunResult :=
  if !permOk then ⟨some errorPermissionDeniedM, 0, 0⟩
  else if !bodyOk then ⟨some ⟨400, "body parse failed"⟩, 0, 0⟩
  else
    match filterMapper table fields conds filters with
    | .error e => ⟨some e, 0, 0⟩
    | .ok q =>
      if uParam = "" && !whereClausePresent q then ⟨some errGuardReject, 0, 0⟩
      else ⟨none,
        (processSetDeletions input loader).length + (processSetCreations input loader).length, 1⟩

/-! ### Aggregate (handlers file `Aggregate`, `parseAggregateFields`) -/

/-- The aggregate function alternatives of `aggregateRegex`. -/
def aggKeywords : List String := ["count", "sum", "min", "max", "avg", "first", "last"]

/-- The charset `[a-z0-9_*\-]` under the regex's case-insensitive flag. -/
def isAggFieldChar (c : Char) : Bool :=
  c.isAlpha || c.isDigit || c = '_' || c = '*' || c = '-'

/-- Case-insensitive "starts with" on character lists. -/
def startsWithCI : List Char → List Char → Bool
  | [], _ => true
  | _ :: _, [] => false
  | k :: ks, c :: cs => (k.toLower = c.toLower) && startsWithCI ks cs

/-- The aggregate-function alternation of `aggregateRegex` matched
case-insensitively at the current position; returns the canonical
keyword (its original-case capture is only ever upper/lower-cased
downstream). -/
def aggKeywordAt (cs : List Char) : Option String :=
  aggKeywords.find? (fun kw => startsWithCI kw.data cs)

/-- One attempted match of `aggregateRegex`
`([a-z0-9_*\-]+)\.(count|sum|min|max|avg|first|last)` at the current
position. -/
def aggTryMatch (cs : List Char) : Option (String × String) :=
  let (run, rest) := cs.span isAggFieldChar
  if run.isEmpty then none
  else
    match rest with
    | '.' :: rest2 => (aggKeywordAt rest2).map (fun kw => (String.mk run, kw))
    | _ => none

/-- Model of `regexp.FindStringSubmatch` for `aggregateRegex`: the leftmost match
in the string. -/
def aggFind : List Char → Option (String × String)
  | [] => none
  | c :: cs =>
    match aggTryMatch (c :: cs) with
    | some r => some r
    | none => aggFind cs

/-- The `SELECT` fragment built per matched `field.function` item:
`FUNC(`field`) AS `field.func``, with `*` left unescaped. -/
def formatAggPart (fieldName kw : String) : String :=
  let funcName := strToUpper kw
  let fieldAlias := fieldName ++ "." ++ strToLower funcName
  let fld := if fieldName ≠ "*" then "`" ++ fieldName ++ "`" else fieldName
  funcName ++ "(" ++ fld ++ ") AS `" ++ fieldAlias ++ "`"

def errFieldsRequired : ErrorModel := ⟨400, "fields parameter is required"⟩

def errFieldsInvalid : ErrorModel :=
  ⟨400, "fields parameter should contain aggregate functions field_name.aggregate_function"⟩

/-- Model of `Handler.parseAggregateFields`: 400 when the `fields` parameter is
missing; each comma-separated item contributes a select part when
`aggregateRegex` matches it; 400 when no item matched. -/
def parseAggregateFields (fieldsInput : String) : Except ErrorModel String :=
  if fieldsInput = "" then .error errFieldsRequired
  else
    let selectParts := (strSplit fieldsInput ',').filterMap
      (fun item => (aggFind item.data).map (fun p => formatAggPart p.1 p.2))
    if selectParts.isEmpty then .error errFieldsInvalid
    else .ok (String.intercalate "," selectParts)

/-- Model of `Handler.Aggregate`: permission check, `buildAggregateQuery`
(`ApplyFilters`), `parseAggregateFields`, then the (grouped or simple)
`Scan`.  The handler never reads the `unsafe` parameter and has no
WHERE-clause guard; `uParam` is accepted and ignored exactly as the
source ignores it. -/
def aggregateRun (table : String) (fields : List SchemaF) (conds : List ConditionM)
    (filters _uParam fieldsParam : String) (permOk : Bool) : RunResult :=
  if !permOk then ⟨some errorPermissionDeniedM, 0, 0⟩
  else
    match filterMapper table fields conds filters with
    | .error e => ⟨some e, 0, 0⟩
    | .ok _q =>
      match parseAggregateFields fieldsParam with
      | .error e => ⟨some e, 0, 0⟩
      | .ok _sel => ⟨none, 0, 1⟩

/-! ## Validation and the Create pipeline (validation.go, resource.go,
handlers and hooks files) -/

/-- A `ValidationError` entry of the response envelope. -/
structure ValidationErrorM where
  field : String
  error : String
deriving Repr, DecidableEq

/-- The per-request response/status state the Create path touches:
`Context.Code`, the envelope's success flag and error message, and the
`validation_error` list. -/
structure CtxState where
  code : Int
  success : Bool
  errorMsg : String
  validationError : List ValidationErrorM
deriving Repr, DecidableEq

/-- The fresh state `Endpoint.handler` builds per request: success true,
zero status. -/
def ctxInit : CtxState := ⟨0, true, "", []⟩

/-- Model of `strings.SplitN(s, " ", 2)`: head token and optional remainder. -/
def splitFirstSpace (s : String) : String × Option String :=
  match strSplit s ' ' with
  | [] => (s, none)
  | [x] => (x, none)
  | x :: rest => (x, some (String.intercalate " " rest))

/-- Model of `Context.AddValidationErrors` (resource.go lines 642–657): on a
non-empty error list, mark the response failed, set `Code = 412`, and
append one `{field, message}` entry per error (each error string split at
its first space). -/
def addValidationErrors (st : CtxState) (errs : List String) : CtxState :=
  if errs.isEmpty then st
  else
    { st with
      success := false
      code := 412
      validationError := st.validationError ++ errs.map (fun e =>
        let p := splitFirstSpace e
        ⟨p.1, p.2.getD ""⟩) }

/-- Model of `Context.Validate`: run the external tag validator (its field-error
list is the parameter), collect the errors via `AddValidationErrors`, and
return the plain "validation failed" error when any were found. -/
def validateCtx (st : CtxState) (tagErrs : List String) : CtxState × Option String :=
  if tagErrs.isEmpty then (st, none)
  else (addValidationErrors st tagErrs, some "validation failed")

/-- Model of `Context.Error`: wrap a plain error with the given status code. -/
def contextError (msg : String) (code : Int) : ErrorModel := ⟨code, msg⟩

/-- Model of `callBeforeCreateHook` (hooks file lines 172–183) running the
callback chain `registerHooks` installs: the model's `OnBeforeCreate`,
the model's `ValidateCreate`, `Context.Validate` (tag validation), then
the `OnBeforeSave` callbacks; the first plain error is wrapped by
`c.Error(err, 500)`. -/
def callBeforeCreateHook (st : CtxState) (onBeforeCreateErr validateCreateErr : Option String)
    (tagErrs : List String) (onBeforeSaveErr : Option String) : CtxState × Option ErrorModel :=
  match onBeforeCreateErr with
  | some e => (st, some (contextError e 500))
  | none =>
    match validateCreateErr with
    | some e => (st, some (contextError e 500))
    | none =>
      match validateCtx st tagErrs with
      | (st, some e) => (st, some (contextError e 500))
      | (st, none) =>
        match onBeforeSaveErr with
        | some e => (st, some (contextError e 500))
        | none => (st, none)

/-- Model of `Context.HandleError` (resource.go lines 422–429): a non-nil error
sets the envelope's message, clears the success flag, and overwrites
`Context.Code` with the error's code. -/
def handleError (st : CtxState) (e : Option ErrorModel) : CtxState :=
  match e with
  | none => st
  | some err => { st with errorMsg := err.message, success := false, code := err.code }

/-- Final state and database-write count of one `Handler.Create` request
as dispatched by `Endpoint.handler`: body parse, permission check,
`callBeforeCreateHook`, then `applyOverrides`, the `dbo.Create`
statement, and the after hooks; `Endpoint.handler` passes the returned
error through `Context.HandleError`. -/
def createRun (bodyOk permOk : Bool) (onBeforeCreateErr validateCreateErr : Option String)
    (tagErrs : List String) (onBeforeSaveErr : Option String) (dbOk : Bool) :
    CtxState × Nat :=
  if !bodyOk then (handleError ctxInit (some (contextError "bad request" 400)), 0)
  else if !permOk then (handleError ctxInit (some errorPermissionDeniedM), 0)
  else
    match callBeforeCreateHook ctxInit onBeforeCreateErr validateCreateErr tagErrs onBeforeSaveErr with
    | (st, some e) => (handleError st (some e), 0)
    | (st, none) =>
      if !dbOk then (handleError st (some (contextError "database error" 500)), 1)
      else (handleError st none, 1)

/-! ## Theorems -/

/-- C5: for every operation and model, a model that implements the
`RestPermission` hook decides authorization by the hook's verdict alone —
the global default permission handler never influences (is never invoked
on) that model's operations; without the hook, the global handler (when
set) decides on the decomposed permission tokens; with neither, the check
allows. -/
theorem restPermission_precedence :
    (∀ (h : List String → Bool) (g₁ g₂ : Option (List String → Bool)) (perm : String),
      restPermission (some h) g₁ perm = h (toPermissions perm) ∧
      restPermission (some h) g₁ perm = restPermission (some h) g₂ perm) ∧
    (∀ (g : List String → Bool) (perm : String),
      restPermission none (some g) perm = g (toPermissions perm)) ∧
    (∀ perm : String, restPermission none none perm = true) :=
  ⟨fun _ _ _ _ => ⟨rfl, rfl⟩, fun _ _ => rfl, fun _ => rfl⟩

theorem setLast_pages (p : Pagination) : (setLast p).pages = p.pages := by
  unfold setLast getOffset getPage
  by_cases h : p.page < 1
  · rw [if_pos h]; dsimp only; split <;> rfl
  · rw [if_neg h]; dsimp only; split <;> rfl

theorem setPageRange_pages (p : Pagination) : (setPageRange p).pages = p.pages := rfl

theorem tdiv_natCast (m n : Nat) : Int.tdiv (m : Int) (n : Int) = ((m / n : Nat) : Int) := rfl

theorem tmod_natCast (m n : Nat) : Int.tmod (m : Int) (n : Int) = ((m % n : Nat) : Int) := rfl

theorem ceilDivNat (r l : Nat) (hl : 0 < l) (hr : r ≠ 0) :
    (if r % l = 0 then r / l else r / l + 1) = max 1 ((r + l - 1) / l) := by
  have hl1 : (l - 1) % l = l - 1 := Nat.mod_eq_of_lt (by omega)
  have hl0 : (l - 1) / l = 0 := Nat.div_eq_of_lt (by omega)
  have hrl : r + l - 1 = r + (l - 1) := by omega
  have hadd := Nat.add_div (a := r) (b := l - 1) hl
  rw [hrl, hadd, hl0, hl1]
  by_cases h : r % l = 0
  · rw [if_pos h, h]
    rw [if_neg (by omega)]
    have hlr : l ≤ r := by
      by_contra hc
      push_neg at hc
      rw [Nat.mod_eq_of_lt hc] at h
      exact hr h
    have h1 : 1 ≤ r / l := (Nat.one_le_div_iff hl).mpr hlr
    rw [max_eq_right (show 1 ≤ r / l + 0 + 0 from h1)]
    rfl
  · rw [if_neg h]
    have hmo : r % l < l := Nat.mod_lt _ hl
    rw [if_pos (by omega)]
    rw [max_eq_right (show 1 ≤ r / l + 0 + 1 from Nat.succ_le_succ (Nat.zero_le _))]

theorem div_one_le_of_mod_zero (r l : Nat) (hr : r ≠ 0) (h : r % l = 0) : 1 ≤ r / l := by
  have hl : 0 < l := by
    rcases Nat.eq_zero_or_pos l with h0 | h1
    · subst h0; simp at h; exact absurd h hr
    · exact h1
  have hlr : l ≤ r := by
    by_contra hc
    push_neg at hc
    rw [Nat.mod_eq_of_lt hc] at h
    exact hr h
  exact (Nat.one_le_div_iff hl).mpr hlr

theorem setPages_pages (p : Pagination) (r l : Nat) (hr : r ≠ 0) :
    (setPages { p with records := (r : Int), limit := (l : Int) }).pages
      = ((if r % l = 0 then r / l else r / l + 1 : Nat) : Int) := by
  unfold setPages
  dsimp only
  rw [if_neg (show ¬ ((r : Int) = 0) by exact_mod_cast hr)]
  rw [tmod_natCast, tdiv_natCast]
  by_cases h : r % l = 0
  · rw [if_pos (show ((r % l : Nat) : Int) = 0 by exact_mod_cast h)]
    dsimp only
    have h1 := div_one_le_of_mod_zero r l hr h
    rw [if_neg (show ¬ (((r / l : Nat) : Int) = 0) by exact_mod_cast by omega)]
    rw [setPageRange_pages, setLast_pages]
    rw [if_pos h]
  · rw [if_neg (show ¬ (((r % l : Nat) : Int) = 0) by exact_mod_cast h)]
    dsimp only
    rw [if_neg (show ¬ (((r / l : Nat) : Int) + 1 = 0) by positivity)]
    rw [setPageRange_pages, setLast_pages]
    rw [if_neg h]
    push_cast
    ring

/-- C7: for every paginated request, `SetLimit` clamps the effective
limit into `[10, 100]` with a zero size yielding 10; `SetCurrentPage`
makes the current page at least 1, with zero or negative input yielding
1; and `SetPages` computes `max 1 ⌈records / limit⌉` (expressed with
natural ceiling division `(r + l - 1) / l`) for a non-negative record
count and a positive limit. -/
theorem pagination_limit_page_pages (p : Pagination) (s n : Int) (r l : Nat) (hl : 0 < l) :
    ((setLimit p s).limit = max 10 (min 100 s) ∧
      10 ≤ (setLimit p s).limit ∧ (setLimit p s).limit ≤ 100 ∧
      (s = 0 → (setLimit p s).limit = 10)) ∧
    ((setCurrentPage p n).page = (if 0 < n then n else 1) ∧ 1 ≤ (setCurrentPage p n).page) ∧
    (setPages { p with records := (r : Int), limit := (l : Int) }).pages
      = ((max 1 ((r + l - 1) / l) : Nat) : Int) := by
  refine ⟨?_, ?_, ?_⟩
  · unfold setLimit
    dsimp only
    by_cases h0 : s ≠ 0
    · rw [if_pos h0]
      dsimp only
      by_cases h1 : s < 10
      · rw [if_pos h1]
        refine ⟨?_, ?_, ?_, fun hs => ?_⟩ <;>
          · try dsimp only
            try omega
      · rw [if_neg h1]
        by_cases h2 : s > 100
        · rw [if_pos h2]
          refine ⟨?_, ?_, ?_, fun hs => ?_⟩ <;>
            · try dsimp only
              try omega
        · rw [if_neg h2]
          refine ⟨?_, ?_, ?_, fun hs => ?_⟩ <;>
            · try dsimp only
              try omega
    · rw [if_neg h0]
      push_neg at h0
      subst h0
      dsimp only
      rw [if_neg (show ¬ ((10 : Int) < 10) by norm_num)]
      rw [if_neg (show ¬ ((10 : Int) > 100) by norm_num)]
      refine ⟨?_, ?_, ?_, fun hs => ?_⟩ <;>
        · try dsimp only
          try omega
  · unfold setCurrentPage
    by_cases h : (0 : Int) < n
    · rw [if_pos h, if_pos h]
      refine ⟨rfl, ?_⟩
      try dsimp only
      try omega
    · rw [if_neg h, if_neg h]
      refine ⟨rfl, ?_⟩
      try dsimp only
      try omega
  · by_cases hr : r = 0
    · subst hr
      unfold setPages
      dsimp only
      rw [if_pos (by norm_num)]
      have h0 : (0 + l - 1) / l = 0 := Nat.div_eq_of_lt (by omega)
      rw [h0]
      norm_num
    · rw [setPages_pages p r l hr, ceilDivNat r l hl hr]

/-- Witness for `pagination_limit_page_pages` at `s = 0`, `n = 0`,
`r = 25`, `l = 10`. -/
theorem pagination_limit_page_pages_witness :
    ((setLimit {} 0).limit = max 10 (min 100 0) ∧
      10 ≤ (setLimit {} 0).limit ∧ (setLimit {} 0).limit ≤ 100 ∧
      ((0 : Int) = 0 → (setLimit {} 0).limit = 10)) ∧
    ((setCurrentPage {} 0).page = (if (0 : Int) < 0 then 0 else 1) ∧
      1 ≤ (setCurrentPage {} 0).page) ∧
    (setPages { ({} : Pagination) with records := ((25 : Nat) : Int), limit := ((10 : Nat) : Int) }).pages
      = ((max 1 ((25 + 10 - 1) / 10) : Nat) : Int) :=
  pagination_limit_page_pages {} 0 0 25 10 (by decide)

theorem applyOverrideFields_getD (o t : List GoValue) (i : Nat)
    (hi : i < o.length) (hlen : o.length = t.length) :
    (applyOverrideFields o t).getD i (.prim true "") =
      (if goIsZero (o.getD i (.prim true "")) = true then t.getD i (.prim true "")
       else o.getD i (.prim true "")) := by
  induction o generalizing t i with
  | nil => simp at hi
  | cons a os ih =>
    cases t with
    | nil => simp at hlen
    | cons b ts =>
      cases i with
      | zero =>
        by_cases hz : goIsZero a = true <;>
          simp [applyOverrideFields, hz]
      | succ j =>
        simp only [applyOverrideFields, List.getD_cons_succ]
        exact ih ts j (by simpa using hi) (by simpa using hlen)

/-- C8: when the Context holds an Override whose field `i` is non-zero,
the object handed to the database write (Create and Update alike) takes
that field from the Override regardless of the client-submitted body;
Override fields that are zero-valued are treated as not set and the
corresponding body field passes through unchanged; with no Override set,
`applyOverrides` changes nothing. -/
theorem override_precedence (o body : List GoValue) (i : Nat)
    (hi : i < o.length) (hlen : o.length = body.length) :
    (goIsZero (o.getD i (.prim true "")) = false →
      (createWrittenObject (some o) body).getD i (.prim true "") = o.getD i (.prim true "") ∧
      (updateWrittenObject (some o) body).getD i (.prim true "") = o.getD i (.prim true "")) ∧
    (goIsZero (o.getD i (.prim true "")) = true →
      (createWrittenObject (some o) body).getD i (.prim true "") = body.getD i (.prim true "") ∧
      (updateWrittenObject (some o) body).getD i (.prim true "") = body.getD i (.prim true "")) ∧
    createWrittenObject none body = body := by
  have h := applyOverrideFields_getD o body i hi hlen
  refine ⟨fun hz => ?_, fun hz => ?_, rfl⟩
  · rw [show createWrittenObject (some o) body = applyOverrideFields o body from rfl,
      show updateWrittenObject (some o) body = applyOverrideFields o body from rfl,
      h, if_neg (by rw [hz]; exact Bool.false_ne_true)]
    exact ⟨rfl, rfl⟩
  · rw [show createWrittenObject (some o) body = applyOverrideFields o body from rfl,
      show updateWrittenObject (some o) body = applyOverrideFields o body from rfl,
      h, if_pos hz]
    exact ⟨rfl, rfl⟩

/-- Witness for `override_precedence`: an Override fixing field 0 to the
non-zero value `42` wins over the body's `7`. -/
theorem override_precedence_witness :
    (createWrittenObject (some [GoValue.prim false "42", GoValue.prim true ""])
        [GoValue.prim false "7", GoValue.prim false "x"]).getD 0 (.prim true "")
      = GoValue.prim false "42" :=
  ((override_precedence [GoValue.prim false "42", GoValue.prim true ""]
      [GoValue.prim false "7", GoValue.prim false "x"] 0 (by decide) rfl).1 rfl).1

theorem equalDeref_of_derefAll_eq (f1 f2 : GoValue) (h : derefAll f2 = derefAll f1) :
    equalDeref f1 f2 = true := by
  unfold equalDeref
  by_cases hs : isStructValue (derefAll f1) = true
  · rw [if_pos hs]
  · rw [if_neg hs, h]
    exact beq_self_eq_true _

theorem equalField_refl (f : GoValue) : equalField f f = true := by
  unfold equalField
  by_cases hz : (goIsZero f || goIsZero f) = true
  · rw [if_pos hz]
  · rw [if_neg hz]
    cases f with
    | prim z s => exact equalDeref_of_derefAll_eq _ _ rfl
    | strct fs => exact equalDeref_of_derefAll_eq _ _ rfl
    | ptr o =>
      cases o with
      | none => rfl
      | some v =>
        rw [show isNilValue (GoValue.ptr (some v)) = false from rfl]
        simp only [Bool.false_eq_true, if_false]
        exact equalDeref_of_derefAll_eq v (GoValue.ptr (some v)) rfl

theorem equalFields_refl (fs : List GoValue) : equalFields fs fs = true := by
  induction fs with
  | nil => rfl
  | cons f r ih => simp [equalFields, equalField_refl, ih]

theorem equal_refl_of_struct (x : GoValue) (fs : List GoValue)
    (h : derefAll x = GoValue.strct fs) : equal x x = true := by
  unfold equal
  rw [h]
  exact equalFields_refl fs

/-- C4: Set reconciliation is idempotent — submitting exactly the rows
the filtered scope already holds yields zero deletions and zero
creations (every Set item is a struct of the registered model type,
whence the struct-shape hypothesis). -/
theorem set_idempotent (l : List GoValue)
    (h : ∀ x ∈ l, ∃ fs, derefAll x = GoValue.strct fs) :
    processSetDeletions l l = [] ∧ processSetCreations l l = [] := by
  have hmem : ∀ x ∈ l, itemExistsInSlice x l = true := by
    intro x hx
    obtain ⟨fs, hfs⟩ := h x hx
    unfold itemExistsInSlice
    rw [List.any_eq_true]
    exact ⟨x, hx, equal_refl_of_struct x fs hfs⟩
  constructor
  · unfold processSetDeletions
    rw [List.filter_eq_nil_iff]
    intro x hx
    simp [hmem x hx]
  · unfold processSetCreations
    rw [List.filter_eq_nil_iff]
    intro x hx
    simp [hmem x hx]

/-- Witness for `set_idempotent` on a one-row collection. -/
theorem set_idempotent_witness :
    processSetDeletions [GoValue.strct [GoValue.prim false "1"]]
        [GoValue.strct [GoValue.prim false "1"]] = [] ∧
    processSetCreations [GoValue.strct [GoValue.prim false "1"]]
        [GoValue.strct [GoValue.prim false "1"]] = [] :=
  set_idempotent [GoValue.strct [GoValue.prim false "1"]] (by
    intro x hx
    rw [List.mem_singleton] at hx
    subst hx
    exact ⟨[GoValue.prim false "1"], rfl⟩)

/-- C3: for the Set handler with existing rows `{A, B, C}` in the
filtered scope and submitted collection `{B, C, D}` (distinctness and
self-match expressed through the handler's own `equal` comparison), the
deletion pass removes exactly `A` and the creation pass inserts exactly
`D`; `B` and `C` are neither deleted nor created. -/
theorem set_reconciliation_diff (A B C D : GoValue)
    (hAB : equal A B = false) (hAC : equal A C = false) (hAD : equal A D = false)
    (hDA : equal D A = false) (hDB : equal D B = false) (hDC : equal D C = false)
    (hBB : equal B B = true) (hCC : equal C C = true) :
    processSetDeletions [B, C, D] [A, B, C] = [A] ∧
    processSetCreations [B, C, D] [A, B, C] = [D] := by
  unfold processSetDeletions processSetCreations itemExistsInSlice
  simp [List.filter, List.any, hAB, hAC, hAD, hDA, hDB, hDC, hBB, hCC]

/-- Witness for `set_reconciliation_diff` on four concrete one-field
rows. -/
theorem set_reconciliation_diff_witness :
    processSetDeletions
        [GoValue.strct [GoValue.prim false "2"], GoValue.strct [GoValue.prim false "3"],
          GoValue.strct [GoValue.prim false "4"]]
        [GoValue.strct [GoValue.prim false "1"], GoValue.strct [GoValue.prim false "2"],
          GoValue.strct [GoValue.prim false "3"]]
      = [GoValue.strct [GoValue.prim false "1"]] ∧
    processSetCreations
        [GoValue.strct [GoValue.prim false "2"], GoValue.strct [GoValue.prim false "3"],
          GoValue.strct [GoValue.prim false "4"]]
        [GoValue.strct [GoValue.prim false "1"], GoValue.strct [GoValue.prim false "2"],
          GoValue.strct [GoValue.prim false "3"]]
      = [GoValue.strct [GoValue.prim false "4"]] :=
  set_reconciliation_diff
    (GoValue.strct [GoValue.prim false "1"]) (GoValue.strct [GoValue.prim false "2"])
    (GoValue.strct [GoValue.prim false "3"]) (GoValue.strct [GoValue.prim false "4"])
    rfl rfl rfl rfl rfl rfl rfl rfl

theorem goIsZero_of_isNilValue (f : GoValue) (h : isNilValue f = true) : goIsZero f = true := by
  cases f with
  | prim z s => simp [isNilValue] at h
  | strct fs => simp [isNilValue] at h
  | ptr o => cases o with
    | none => rfl
    | some v => simp [isNilValue] at h

theorem equalDeref_of_struct (f1 f2 : GoValue) (g : List GoValue)
    (hg : derefAll f1 = GoValue.strct g) : equalDeref f1 f2 = true := by
  unfold equalDeref
  rw [hg]
  rfl

theorem equalField_skip (f1 f2 : GoValue)
    (h : goIsZero f1 = true ∨ goIsZero f2 = true ∨ ∃ g, derefAll f1 = GoValue.strct g) :
    equalField f1 f2 = true := by
  unfold equalField
  by_cases hz : (goIsZero f2 || goIsZero f1) = true
  · rw [if_pos hz]
  · rw [if_neg hz]
    simp only [Bool.or_eq_true, not_or, Bool.not_eq_true] at hz
    obtain ⟨hz2, hz1⟩ := hz
    obtain ⟨g, hg⟩ := (h.resolve_left (by simp [hz1])).resolve_left (by simp [hz2])
    cases f1 with
    | prim z s => simp [derefAll] at hg
    | strct fs => exact equalDeref_of_struct _ f2 g hg
    | ptr o =>
      cases o with
      | none => simp [goIsZero] at hz1
      | some v =>
        have hnil : isNilValue f2 = false := by
          by_contra hc
          simp only [Bool.not_eq_false] at hc
          rw [goIsZero_of_isNilValue f2 hc] at hz2
          exact absurd hz2 (by simp)
        rw [hnil]
        simp only [Bool.false_eq_true, if_false]
        exact equalDeref_of_struct v f2 g hg

theorem equalFields_skip (fs1 fs2 : List GoValue)
    (hlen : fs1.length ≤ fs2.length)
    (h : ∀ p ∈ fs1.zip fs2,
      goIsZero p.1 = true ∨ goIsZero p.2 = true ∨ ∃ g, derefAll p.1 = GoValue.strct g) :
    equalFields fs1 fs2 = true := by
  induction fs1 generalizing fs2 with
  | nil => rfl
  | cons f1 r1 ih =>
    cases fs2 with
    | nil => simp at hlen
    | cons f2 r2 =>
      have h1 := h (f1, f2) (by simp [List.zip_cons_cons])
      have h2 : ∀ p ∈ r1.zip r2,
          goIsZero p.1 = true ∨ goIsZero p.2 = true ∨ ∃ g, derefAll p.1 = GoValue.strct g :=
        fun p hp => h p (by simp [List.zip_cons_cons, hp])
      simp only [equalFields, Bool.and_eq_true]
      exact ⟨equalField_skip f1 f2 h1, ih r2 (by simpa using hlen) h2⟩

theorem equal_of_skip (x y : GoValue) (xs ys : List GoValue)
    (hx : derefAll x = GoValue.strct xs) (hy : derefAll y = GoValue.strct ys)
    (hlen : xs.length ≤ ys.length)
    (h : ∀ p ∈ xs.zip ys,
      goIsZero p.1 = true ∨ goIsZero p.2 = true ∨ ∃ g, derefAll p.1 = GoValue.strct g) :
    equal x y = true := by
  unfold equal
  rw [hx, hy]
  exact equalFields_skip xs ys hlen h

/-- C10 counterexample: with no existing rows in the filtered scope, a
submitted entry whose non-struct fields are all zero-valued IS created by
the creation pass, contradicting the claim that such an entry is never
created. -/
theorem set_zero_entry_counterexample :
    processSetCreations [GoValue.strct [GoValue.prim true "", GoValue.prim true ""]] []
      = [GoValue.strct [GoValue.prim true "", GoValue.prim true ""]] := rfl

/-- C10 (amended): `equal` skips every field pair with a zero-valued side
and skips struct-kind fields entirely; hence a submitted entry whose
non-struct fields are all zero-valued (the zip hypotheses pair its
fields with each same-typed loaded row) matches every loaded row, so its
presence blocks the deletion of every loaded row, and — provided at
least one row was loaded — the entry itself is never created. -/
theorem set_zero_entry (y : GoValue) (ys : List GoValue) (input loader : List GoValue)
    (hy : derefAll y = GoValue.strct ys)
    (hyin : y ∈ input)
    (hrows : ∀ x ∈ loader, ∃ xs, derefAll x = GoValue.strct xs ∧ xs.length = ys.length ∧
      (∀ p ∈ xs.zip ys,
        goIsZero p.1 = true ∨ goIsZero p.2 = true ∨ ∃ g, derefAll p.1 = GoValue.strct g) ∧
      (∀ p ∈ ys.zip xs,
        goIsZero p.1 = true ∨ goIsZero p.2 = true ∨ ∃ g, derefAll p.1 = GoValue.strct g)) :
    processSetDeletions input loader = [] ∧
    (loader ≠ [] → y ∉ processSetCreations input loader) := by
  constructor
  · unfold processSetDeletions
    rw [List.filter_eq_nil_iff]
    intro x hx
    obtain ⟨xs, hxs, hlen, hd, _hc⟩ := hrows x hx
    have hxy : equal x y = true := equal_of_skip x y xs ys hxs hy (le_of_eq hlen) hd
    have : itemExistsInSlice x input = true := by
      unfold itemExistsInSlice
      rw [List.any_eq_true]
      exact ⟨y, hyin, hxy⟩
    simp [this]
  · intro hne hmem
    obtain ⟨z, hz⟩ := List.exists_mem_of_ne_nil loader hne
    obtain ⟨xs, hxs, hlen, _hd, hc⟩ := hrows z hz
    have hyz : equal y z = true := equal_of_skip y z ys xs hy hxs (le_of_eq hlen.symm) hc
    have hex : itemExistsInSlice y loader = true := by
      unfold itemExistsInSlice
      rw [List.any_eq_true]
      exact ⟨z, hz, hyz⟩
    rw [processSetCreations, List.mem_filter] at hmem
    rw [hex] at hmem
    simp at hmem

/-- Witness for `set_zero_entry`: an all-zero two-field entry against a
single loaded two-field row. -/
theorem set_zero_entry_witness :
    processSetDeletions [GoValue.strct [GoValue.prim true "", GoValue.prim true ""]]
        [GoValue.strct [GoValue.prim false "1", GoValue.prim false "foo"]] = [] ∧
    ([GoValue.strct [GoValue.prim false "1", GoValue.prim false "foo"]] ≠
        ([] : List GoValue) →
      GoValue.strct [GoValue.prim true "", GoValue.prim true ""] ∉
        processSetCreations [GoValue.strct [GoValue.prim true "", GoValue.prim true ""]]
          [GoValue.strct [GoValue.prim false "1", GoValue.prim false "foo"]]) :=
  set_zero_entry (GoValue.strct [GoValue.prim true "", GoValue.prim true ""])
    [GoValue.prim true "", GoValue.prim true ""]
    [GoValue.strct [GoValue.prim true "", GoValue.prim true ""]]
    [GoValue.strct [GoValue.prim false "1", GoValue.prim false "foo"]]
    rfl (List.mem_singleton.mpr rfl)
    (by
      intro x hx
      rw [List.mem_singleton] at hx
      subst hx
      refine ⟨[GoValue.prim false "1", GoValue.prim false "foo"], rfl, rfl, ?_, ?_⟩
      · intro p hp
        simp at hp
        rcases hp with h1 | h2
        · subst h1; exact Or.inr (Or.inl rfl)
        · subst h2; exact Or.inr (Or.inl rfl)
      · intro p hp
        simp at hp
        rcases hp with h1 | h2
        · subst h1; exact Or.inl rfl
        · subst h2; exact Or.inl rfl)

/-- C9 counterexample: a token with an invalid direction is not ignored —
`price.bogus` is applied as an explicit `ASC` order — and a token with no
dot separator is passed through verbatim into the order clause rather
than falling back to the default, unspecified order. -/
theorem parseOrderBy_counterexample :
    applyOrder "product" "price.bogus" = some "`product`.`price` ASC" ∧
    applyOrder "product" "price.bogus" ≠ none ∧
    applyOrder "product" "name" = some "name" := by
  refine ⟨by decide, by decide, by decide⟩

/-- C9 (amended): `parseOrderBy` never fails, but malformed order tokens
are not ignored — a token whose trimmed form has no `.` separator is kept
verbatim in the ORDER BY clause list, and a token whose direction part is
neither `asc` nor `desc` (case-insensitive) is applied with the `ASC`
fallback direction; a non-empty `order` parameter is always applied via
`query.Order` with no error path. -/
theorem parseOrderBy_malformed_spec (table cl : String) :
    ((strSplit (strTrim cl) '.').length < 2 → normalizeOrderClause table cl = cl) ∧
    (∀ ps : List String, strSplit (strTrim cl) '.' = ps → 2 ≤ ps.length →
      strToUpper (ps.getLastD "") ≠ "ASC" → strToUpper (ps.getLastD "") ≠ "DESC" →
      normalizeOrderClause table cl =
        "`" ++ table ++ "`.`" ++ String.intercalate "." ps.dropLast ++ "` ASC") ∧
    (∀ order : String, order ≠ "" → applyOrder table order = some (parseOrderBy order table)) := by
  refine ⟨fun h => ?_, fun ps hps hlen ha hd => ?_, fun order h => ?_⟩
  · unfold normalizeOrderClause
    dsimp only
    rw [if_pos h]
  · unfold normalizeOrderClause
    dsimp only
    rw [hps, if_neg (by omega)]
    rw [if_pos ⟨ha, hd⟩]
    rw [String.append_assoc]
    rfl
  · unfold applyOrder
    rw [if_pos h]

/-- Witness for `parseOrderBy_malformed_spec` at the tokens `name` and
`price.bogus`. -/
theorem parseOrderBy_malformed_spec_witness :
    normalizeOrderClause "product" "name" = "name" ∧
    normalizeOrderClause "product" "price.bogus" =
      "`" ++ "product" ++ "`.`" ++ String.intercalate "." (["price", "bogus"] : List String).dropLast ++ "` ASC" ∧
    applyOrder "product" "price.desc" = some (parseOrderBy "price.desc" "product") :=
  ⟨(parseOrderBy_malformed_spec "product" "name").1 (by decide),
    (parseOrderBy_malformed_spec "product" "price.bogus").2.1 ["price", "bogus"]
      (by decide) (by decide) (by decide) (by decide),
    (parseOrderBy_malformed_spec "product" "price.desc").2.2 "price.desc" (by decide)⟩

/-- C1 counterexample: with a schema field implementing the custom
`RestFilter` capability, the user-controlled filter `price[eq]=10` makes
`filterMapper` return before the forced-`Condition` loop runs — the
forced Condition `deleted = 0` is absent from the produced query's
predicates even though no error is reported. -/
theorem filterMapper_conditions_counterexample :
    filterMapper "product" [⟨"Price", "price", true⟩] [⟨"deleted", "=", "0"⟩] "price[eq]=10"
      = .ok ⟨[.custom "price" "eq" "10"], false⟩ ∧
    condToPred "product" ⟨"deleted", "=", "0"⟩ ∉
      ([.custom "price" "eq" "10"] : List PredM) :=
  ⟨rfl, by decide⟩

theorem filterMapperLoop_conditions (table : String) (fields : List SchemaF)
    (conds : List ConditionM) (cls : List FilterClauseM) (q0 q : QueryM)
    (hnf : ∀ cl ∈ cls, ∀ f, fields.find? (fun g => g.dbName = cl.column) = some f →
      f.hasRestFilter = false)
    (hok : filterMapperLoop table fields conds cls q0 = .ok q) :
    ∀ c ∈ conds, condToPred table c ∈ q.preds := by
  induction cls generalizing q0 with
  | nil =>
    intro c hc
    unfold filterMapperLoop at hok
    simp only [Except.ok.injEq] at hok
    subst hok
    exact List.mem_append_right _ (List.mem_map_of_mem _ hc)
  | cons cl rest ih =>
    intro c hc
    unfold filterMapperLoop at hok
    cases hf : fields.find? (fun f => f.dbName = cl.column) with
    | none =>
      rw [hf] at hok
      exact Except.noConfusion hok
    | some f =>
      rw [hf] at hok
      dsimp only at hok
      have hfr : f.hasRestFilter = false := hnf cl (List.mem_cons_self cl rest) f hf
      rw [hfr] at hok
      simp only [Bool.false_eq_true, if_false] at hok
      have hnf2 : ∀ cl2 ∈ rest, ∀ f,
          fields.find? (fun g => g.dbName = cl2.column) = some f → f.hasRestFilter = false :=
        fun cl2 h2 => hnf cl2 (List.mem_cons_of_mem cl h2)
      repeat' split at hok
      all_goals
        first
          | exact ih hnf2 _ hok c hc
          | exact ih _ hnf2 hok c hc
          | exact Except.noConfusion hok

/-- C1 (amended): when no parsed filter clause of the request's query
string resolves to a schema field implementing the custom `RestFilter`
capability, every Condition in the Context's Conditions list is appended
by `filterMapper` as a parameter-bound WHERE predicate on the produced
query — a `RestFilter` field may exist in the schema as long as no
clause targets it; a clause that does hit a `RestFilter` field makes
`filterMapper` return early and the forced Conditions are omitted (see
the counterexample). -/
theorem filterMapper_conditions_appended (table : String) (fields : List SchemaF)
    (conds : List ConditionM) (filters : String) (q : QueryM)
    (hnf : ∀ cl ∈ filterRegEx filters, ∀ f,
      fields.find? (fun g => g.dbName = cl.column) = some f → f.hasRestFilter = false)
    (hok : filterMapper table fields conds filters = .ok q) :
    ∀ c ∈ conds, condToPred table c ∈ q.preds :=
  filterMapperLoop_conditions table fields conds (filterRegEx filters) {} q hnf hok

/-- Witness for `filterMapper_conditions_appended`: the query string
`price[eq]=10` against a schema that DOES contain a `RestFilter`-capable
field (`secret`) which the filter string never targets. -/
theorem filterMapper_conditions_appended_witness :
    condToPred "product" ⟨"deleted", "=", "0"⟩ ∈
      (QueryM.mk [PredM.bound "`product`.`price` = ?" ["10"],
        PredM.bound "`product`.`deleted` = ?" ["0"]] false).preds :=
  filterMapper_conditions_appended "product"
    [⟨"Price", "price", false⟩, ⟨"Secret", "secret", true⟩]
    [⟨"deleted", "=", "0"⟩] "price[eq]=10"
    ⟨[PredM.bound "`product`.`price` = ?" ["10"],
      PredM.bound "`product`.`deleted` = ?" ["0"]], false⟩
    (by
      intro cl hcl f hf
      have hreg : filterRegEx "price[eq]=10" = [⟨"price", "eq", "10"⟩] := rfl
      rw [hreg, List.mem_singleton] at hcl
      subst hcl
      have h2 : some (⟨"Price", "price", false⟩ : SchemaF) = some f := hf
      injection h2 with h3
      rw [← h3])
    rfl ⟨"deleted", "=", "0"⟩ (List.mem_singleton.mpr rfl)

/-- C2 counterexample: the Aggregate handler has no WHERE-clause guard —
with zero predicates and no `unsafe` parameter it still executes its
query instead of rejecting with the unsafe error; and for batch delete
the guard is bypassed by ANY non-empty `unsafe` value (here `unsafe=0`,
which the claim says should still reject), proceeding to the delete. -/
theorem noWhereGuard_counterexample :
    aggregateRun "product" [] [] "" "" "id.count" true = ⟨none, 0, 1⟩ ∧
    batchDeleteRun "product" [] [] "" "0" true = ⟨none, 1, 0⟩ :=
  ⟨rfl, rfl⟩

/-- C2 (amended): for batch update, batch delete and Set — but not
Aggregate — a built query with no WHERE predicate is rejected with the
unsafe error (HTTP 400) before any mutation or read query, unless the
`unsafe` query parameter is present with any non-empty value, in which
case the handler proceeds. -/
theorem noWhereGuard_spec (table : String) (fields : List SchemaF) (conds : List ConditionM)
    (filters uParam : String) (q : QueryM) (input loader : List GoValue)
    (hq : filterMapper table fields conds filters = .ok q)
    (hw : whereClausePresent q = false) :
    (uParam = "" →
      batchUpdateRun table fields conds filters uParam true true true
        = ⟨some errGuardReject, 0, 0⟩ ∧
      batchDeleteRun table fields conds filters uParam true = ⟨some errGuardReject, 0, 0⟩ ∧
      setRun table fields conds filters uParam true true input loader
        = ⟨some errGuardReject, 0, 0⟩) ∧
    (uParam ≠ "" →
      (batchUpdateRun table fields conds filters uParam true true true).error = none ∧
      (batchDeleteRun table fields conds filters uParam true).error = none ∧
      (setRun table fields conds filters uParam true true input loader).error = none) := by
  constructor
  · intro h
    subst h
    refine ⟨?_, ?_, ?_⟩
    · unfold batchUpdateRun
      rw [hq]
      simp [hw]
    · unfold batchDeleteRun
      rw [hq]
      simp [hw]
    · unfold setRun
      rw [hq]
      simp [hw]
  · intro h
    refine ⟨?_, ?_, ?_⟩
    · unfold batchUpdateRun
      rw [hq]
      simp [hw, h]
    · unfold batchDeleteRun
      rw [hq]
      simp [hw, h]
    · unfold setRun
      rw [hq]
      simp [hw, h]

/-- Witness for `noWhereGuard_spec`: empty filter string, no conditions,
empty `unsafe` parameter. -/
theorem noWhereGuard_spec_witness :
    batchUpdateRun "product" [] [] "" "" true true true = ⟨some errGuardReject, 0, 0⟩ ∧
    batchDeleteRun "product" [] [] "" "" true = ⟨some errGuardReject, 0, 0⟩ ∧
    setRun "product" [] [] "" "" true true [] [] = ⟨some errGuardReject, 0, 0⟩ :=
  (noWhereGuard_spec "product" [] [] "" "" ⟨[], false⟩ [] [] rfl rfl).1 rfl

/-- C6: the code evaluated at the failing input.  A full Create whose
parsed body has exactly two fields failing tag validation produces
exactly two `validation_error` entries and performs no database write —
as the claim states — but the final status is 500, not 412:
`AddValidationErrors` sets `Context.Code = 412`, then
`callBeforeCreateHook` wraps the plain "validation failed" error via
`Context.Error(err, 500)` and `Endpoint.handler`'s `HandleError`
overwrites `Context.Code` with that 500. -/
theorem create_two_validation_errors :
    createRun true true none none ["name is required", "email invalid email format"] none true
      = (⟨500, false, "validation failed",
          [⟨"name", "is required"⟩, ⟨"email", "invalid email format"⟩]⟩, 0) ∧
    (createRun true true none none
        ["name is required", "email invalid email format"] none true).1.validationError.length
      = 2 :=
  ⟨rfl, rfl⟩

end Restify
